import Mathlib

/-!
Shallow embedding of the stacks-signer run-loop (stacks-signer/src/runloop.rs and
stacks-signer/src/ping/mod.rs): the block cache with its vote-decision logic, the
nonce-request and signature-share-request rewrite pipeline, command execution, the
operation-result handler and the coordinator-election helper, together with theorems
settling the specification claims about them.

Modelling conventions: bytes are Nat, txids are Nat (standing for the opaque Txid),
a 32-byte Sha512Trunc256Sum is a length-32 list of bytes, ECDSA public keys and
curve points are Nat.  External cryptographic verification of an aggregate signature
is modelled by recording in the signature the unique key/message pair it verifies
against.  The external serialization codec is modelled by an inductive message type
that either carries a decodable block or raw bytes.  Hash maps are association
lists with replace-on-insert semantics.
-/

namespace StacksSigner

/-- A 32-byte hash value, the model of Sha512Trunc256Sum. -/
abbrev Hash := { l : List Nat // l.length = 32 }

/-- Sha512Trunc256Sum.from_bytes: succeeds exactly on 32-byte inputs. -/
def fromBytes (l : List Nat) : Option Hash :=
  if hl : l.length = 32 then some ⟨l, hl⟩ else none

/-- Model of an aggregate (threshold) signature: it records the unique
aggregate-key/message pair against which library verification succeeds. -/
structure Sig where
  over : Option (Nat × List Nat)
deriving DecidableEq

/-- signature.verify against an aggregate public key over a message. -/
def sigVerify (s : Sig) (key : Nat) (msg : List Nat) : Bool :=
  decide (s.over = some (key, msg))

/-- Model of a NakamotoBlock: its header signature hash (none when
header.signature_hash() errors), the txids of its transaction list, and the
signer_signature field of the header. -/
structure Block where
  hash : Option Hash
  txs : List Nat
  signer_signature : Option Sig
deriving DecidableEq

/-- Model of the wire payload of a wsts message: either it decodes as a
NakamotoBlock via read_next, or it is raw bytes (for example vote bytes). -/
inductive Msg where
  | blockMsg (b : Block)
  | raw (bytes : List Nat)
deriving DecidableEq

/-- read_next::<NakamotoBlock>: decode a message payload as a block. -/
def decodeBlock : Msg → Option Block
  | .blockMsg b => some b
  | .raw _ => none

/-- Model of wsts::net::NonceRequest; only the message field matters here. -/
structure NonceRequest where
  message : Msg
deriving DecidableEq

/-- Model of wsts::net::SignatureShareRequest; only the message field matters. -/
structure SignatureShareRequest where
  message : List Nat
deriving DecidableEq

/-- Additional info about a proposed block (runloop.rs BlockInfo). -/
structure BlockInfo where
  block : Block
  vote : Option (List Nat)
  valid : Option Bool
  nonce_request : Option NonceRequest
  signing_round : Bool
deriving DecidableEq

/-- BlockInfo::new. -/
def BlockInfo.new (block : Block) : BlockInfo :=
  { block := block, vote := none, valid := none, nonce_request := none,
    signing_round := false }

/-- BlockInfo::new_with_request.  Note the source sets signing_round to true. -/
def BlockInfo.new_with_request (block : Block) (r : NonceRequest) : BlockInfo :=
  { block := block, vote := none, valid := none, nonce_request := some r,
    signing_round := true }

/-- Association-list lookup, the model of HashMap::get. -/
def alookup {α β : Type} [DecidableEq α] : List (α × β) → α → Option β
  | [], _ => none
  | (k, v) :: rest, a => if k = a then some v else alookup rest a

/-- Remove every binding of a key, the model of HashMap::remove. -/
def aremove {α β : Type} [DecidableEq α] : List (α × β) → α → List (α × β)
  | [], _ => []
  | (k, v) :: rest, a => if k = a then aremove rest a else (k, v) :: aremove rest a

/-- Insert-or-replace a binding, the model of HashMap::insert and of in-place
mutation through entry() / get_mut(). -/
def ainsert {α β : Type} [DecidableEq α] (l : List (α × β)) (a : α) (b : β) :
    List (α × β) :=
  (a, b) :: aremove l a

/-- The block cache: observed blocks keyed by signature hash. -/
abbrev Blocks := List (Hash × BlockInfo)

/-- RunLoopCommand (merkle roots modelled as opaque Nat). -/
inductive Command where
  | dkg
  | sign (block : Block) (is_taproot : Bool) (merkle_root : Option Nat)
  | ping (payload_size : Nat)
deriving DecidableEq

/-- The RunLoop state enum. -/
inductive State where
  | uninitialized
  | idle
  | dkgRound
  | signRound
deriving DecidableEq

/-- The mutable run-loop state touched by the claims: the block cache, the
expected-transactions list, the command queue and the state-machine state. -/
structure RState where
  blocks : Blocks
  transactions : List Nat
  commands : List Command
  state : State
deriving DecidableEq

/-- RunLoop::determine_vote.  110 is the byte literal b'n'.  Returns the updated
BlockInfo (vote cached) and the updated NonceRequest (message rewritten to the
vote bytes). -/
def determine_vote (block_info : BlockInfo) (nonce_request : NonceRequest)
    (transactions : List Nat) (hash : Hash) : BlockInfo × NonceRequest :=
  let vote_bytes :=
    if !(block_info.valid.getD false)
        || !(transactions.all fun txid => block_info.block.txs.contains txid) then
      hash.val ++ [110]
    else
      hash.val
  ({ block_info with vote := some vote_bytes },
   { nonce_request with message := Msg.raw vote_bytes })

/-- RunLoop::validate_nonce_request.  Returns the validity flag, the updated
run-loop state, and the (possibly rewritten) request. -/
def validate_nonce_request (s : RState) (request : NonceRequest) :
    Bool × RState × NonceRequest :=
  match decodeBlock request.message with
  | none => (false, s, request)
  | some block =>
    match block.hash with
    | none => (false, s, request)
    | some hash =>
      match alookup s.blocks hash with
      | none =>
        (false,
         { s with blocks :=
            ainsert s.blocks hash (BlockInfo.new_with_request block request) },
         request)
      | some block_info =>
        match block_info.valid with
        | none =>
          (false,
           { s with blocks :=
              ainsert s.blocks hash { block_info with nonce_request := some request } },
           request)
        | some _ =>
          let out := determine_vote block_info request s.transactions hash
          (true, { s with blocks := ainsert s.blocks hash out.1 }, out.2)

/-- The shape test at the head of RunLoop::validate_signature_share_request:
a 33-byte message ending in b'n' yields its first 32 bytes, a 32-byte message
yields itself, anything else is rejected. -/
def share_request_hash_bytes (m : List Nat) : Option (List Nat) :=
  if m.length = 33 ∧ m.getD 32 0 = 110 then some (m.take 32)
  else if m.length = 32 then some m
  else none

/-- RunLoop::validate_signature_share_request.  Returns the validity flag and
the (possibly rewritten) request. -/
def validate_signature_share_request (blocks : Blocks)
    (request : SignatureShareRequest) : Bool × SignatureShareRequest :=
  match share_request_hash_bytes request.message with
  | none => (false, request)
  | some hash_bytes =>
    match fromBytes hash_bytes with
    | none => (false, request)
    | some hash =>
      match (alookup blocks hash).map fun block_info => block_info.vote with
      | some (some vote) => (true, { request with message := vote })
      | some none => (false, request)
      | none => (false, request)

/-- RunLoop::handle_block_validate_response.  verdict_ok is true for
BlockValidateResponse::Ok, false for Reject; is_coordinator reflects
coordinator_id == self.signing_round.signer_id.  Returns the updated state and
the list of nonce requests fed back through handle_packets (the entry's cached
nonce_request is taken out, leaving none, before this list is built). -/
def handle_block_validate_response (s : RState) (verdict_ok : Bool) (b : Block)
    (is_coordinator : Bool) : RState × List NonceRequest :=
  match b.hash with
  | none => (s, [])
  | some hash =>
    let bi0 := (alookup s.blocks hash).getD (BlockInfo.new b)
    let bi1 := { bi0 with valid := some verdict_ok }
    match bi1.nonce_request with
    | some request =>
      let bi2 := { bi1 with nonce_request := none }
      let out := determine_vote bi2 request s.transactions hash
      ({ s with blocks := ainsert s.blocks hash out.1 }, [out.2])
    | none =>
      let s1 := { s with blocks := ainsert s.blocks hash bi1 }
      if bi1.valid.getD false ∧ bi1.signing_round = false ∧ is_coordinator then
        ({ s1 with commands :=
            s1.commands ++ [Command.sign bi1.block false none] }, [])
      else
        (s1, [])

/-- RunLoop::execute_command.  coordinator_ok is the outcome of the external
coordinator call (start_dkg_round / start_signing_round).  Returns the success
flag and the updated state. -/
def execute_command (s : RState) (coordinator_ok : Bool) (c : Command) :
    Bool × RState :=
  match c with
  | .dkg =>
    if coordinator_ok then (true, { s with state := .dkgRound }) else (false, s)
  | .sign block _ _ =>
    match block.hash with
    | none => (false, s)
    | some hash =>
      match alookup s.blocks hash with
      | some block_info =>
        if block_info.signing_round then
          (false, s)
        else if coordinator_ok then
          (true, { s with
            blocks := ainsert s.blocks hash { block_info with signing_round := true },
            state := .signRound })
        else
          (false, s)
      | none =>
        if coordinator_ok then
          (true, { s with
            blocks := ainsert s.blocks hash
              { BlockInfo.new block with signing_round := true },
            state := .signRound })
        else
          (false, { s with blocks := ainsert s.blocks hash (BlockInfo.new block) })
  | .ping _ => (true, s)

/-- The retry loop inside RunLoop::process_next_command: while execute_command
returns false, try again.  Each list element is the coordinator outcome of one
attempt; none means the loop was still running after all listed attempts. -/
def retry_exec (s : RState) (oracles : List Bool) (c : Command) : Option RState :=
  match oracles with
  | [] => none
  | ok :: rest =>
    match execute_command s ok c with
    | (true, s1) => some s1
    | (false, s1) => retry_exec s1 rest c

/-- RunLoop::process_next_command.  In Idle with a queued command, pop it and
run the retry loop; in every other case return immediately. -/
def process_next_command (s : RState) (oracles : List Bool) : Option RState :=
  match s.state with
  | .idle =>
    match s.commands with
    | [] => some s
    | c :: rest => retry_exec { s with commands := rest } oracles c
  | _ => some s

/-- Operation results delivered by the coordinator; only Sign results matter to
send_block_response_messages. -/
inductive OperationResult where
  | signDone (s : Sig)
  | otherDone
deriving DecidableEq

/-- Reject codes of BlockRejection. -/
inductive RejectCode where
  | signedRejection
  | invalidSignatureHash
deriving DecidableEq

/-- A message published to the miners: a BlockResponse::Accepted or a
BlockRejection. -/
inductive BlockSubmission where
  | accepted (b : Block)
  | rejection (b : Block) (code : RejectCode)
deriving DecidableEq

/-- The block with its header signer_signature field populated, as done just
before building the submission in send_block_response_messages. -/
def with_signature (b : Block) (signature : Sig) : Block :=
  { b with signer_signature := some signature }

/-- The body of the Sign arm of RunLoop::send_block_response_messages for one
operation result: verify the signature over the coordinator message, read the
first 32 bytes as the block hash, remove the BlockInfo, and build the
accept/reject submission. -/
def process_sign_result (blocks : Blocks) (key : Nat) (message : List Nat)
    (signature : Sig) : Blocks × List BlockSubmission :=
  if !(sigVerify signature key message) then (blocks, [])
  else
    let block_hash_bytes := if 32 < message.length then message.take 32 else message
    match fromBytes block_hash_bytes with
    | none => (blocks, [])
    | some block_hash =>
      match alookup blocks block_hash with
      | none => (blocks, [])
      | some block_info =>
        let block := with_signature block_info.block signature
        let submission :=
          if message = block_hash.val then BlockSubmission.accepted block
          else BlockSubmission.rejection block .signedRejection
        (aremove blocks block_hash, [submission])

/-- One iteration of the result loop in send_block_response_messages: only
Sign results are acted upon. -/
def sbrm_step (key : Nat) (message : List Nat)
    (acc : Blocks × List BlockSubmission) (r : OperationResult) :
    Blocks × List BlockSubmission :=
  match r with
  | .signDone s =>
    let out := process_sign_result acc.1 key message s
    (out.1, acc.2 ++ out.2)
  | .otherDone => acc

/-- RunLoop::send_block_response_messages: with no aggregate public key all
results are ignored; otherwise each Sign result is processed in order. -/
def send_block_response_messages (blocks : Blocks) (aggregate_key : Option Nat)
    (message : List Nat) (results : List OperationResult) :
    Blocks × List BlockSubmission :=
  match aggregate_key with
  | none => (blocks, [])
  | some key => results.foldl (sbrm_step key message) (blocks, [])

/-- The public-key set: signer id to ECDSA public key. -/
abbrev PublicKeys := List (Nat × Nat)

/-- calculate_coordinator, totalized: the source returns
(0, public_keys.signers.get(&0).cloned().unwrap()), panicking when signer id 0
has no entry; the none result models that panic. -/
def calculate_coordinator (public_keys : PublicKeys) : Option (Nat × Nat) :=
  (alookup public_keys 0).map fun key => (0, key)

/-- Model of Vec::with_capacity: the vector is empty whatever the capacity. -/
def vec_with_capacity (_capacity : Nat) : List Nat := []

/-- Model of OsRng.fill_bytes over a mutable slice: every existing byte is
overwritten with a random byte; the length never changes. -/
def fill_bytes (rng : Nat → Nat) (buf : List Nat) : List Nat :=
  (List.range buf.length).map rng

/-- ping::Ping. -/
structure Ping where
  id : Nat
  payload : List Nat
deriving DecidableEq

/-- ping::Pong. -/
structure Pong where
  id : Nat
  payload : List Nat
deriving DecidableEq

/-- Ping::new: allocate payload_size bytes of capacity, randomly fill the
(empty) slice, and draw a random id. -/
def Ping.new (payload_size : Nat) (rng : Nat → Nat) (random_id : Nat) : Ping :=
  { id := random_id, payload := fill_bytes rng (vec_with_capacity payload_size) }

/-- Ping::pong: a Pong receives its fields from the Ping. -/
def Ping.pong (p : Ping) : Pong :=
  { id := p.id, payload := p.payload }

/-- The external inputs that drive one mutating operation of the run-loop. -/
inductive Action where
  | initAct (has_aggregate_key : Bool) (is_coordinator : Bool)
  | pushCommand (c : Command)
  | minerProposal (b : Block)
  | validation (verdict_ok : Bool) (b : Block) (is_coordinator : Bool)
  | nonceReq (r : NonceRequest)
  | cmdExec (c : Command) (coordinator_ok : Bool)
  | opResults (aggregate_key : Option Nat) (message : List Nat)
      (results : List OperationResult)

/-- One mutating operation of the run-loop, as a pure state transformer:
initialize, command enqueue (run_one_pass), miner-proposal handling
(handle_stackerdb_chunk_event_miners), block-validation handling, nonce-request
handling inside verify_chunk, command execution, and the block-cache effect of
send_block_response_messages. -/
def step (s : RState) : Action → RState
  | .initAct has_aggregate_key is_coordinator =>
    let s1 :=
      if ¬has_aggregate_key ∧ is_coordinator ∧ s.commands.head? ≠ some Command.dkg
      then { s with commands := Command.dkg :: s.commands }
      else s
    { s1 with state := .idle }
  | .pushCommand c => { s with commands := s.commands ++ [c] }
  | .minerProposal b =>
    match b.hash with
    | none => s
    | some hash => { s with blocks := ainsert s.blocks hash (BlockInfo.new b) }
  | .validation verdict_ok b is_coordinator =>
    (handle_block_validate_response s verdict_ok b is_coordinator).1
  | .nonceReq r => (validate_nonce_request s r).2.1
  | .cmdExec c coordinator_ok => (execute_command s coordinator_ok c).2
  | .opResults aggregate_key message results =>
    { s with blocks := (send_block_response_messages s.blocks aggregate_key
        message results).1 }

/-- The state a fresh run-loop starts in (From<&Config> for RunLoop). -/
def initState : RState :=
  { blocks := [], transactions := [], commands := [], state := .uninitialized }

/-- The run-loop states reachable from a fresh run-loop under any sequence of
external inputs. -/
inductive Reachable : RState → Prop where
  | init : Reachable initState
  | next {s : RState} (a : Action) : Reachable s → Reachable (step s a)

/-- Invariant I1 for a single cache entry: a set vote is 32 or 33 bytes and its
first 32 bytes are the key. -/
def VoteOk (hash : Hash) (bi : BlockInfo) : Prop :=
  ∀ v, bi.vote = some v →
    (v.length = 32 ∨ v.length = 33) ∧ v.take 32 = hash.val

/-- Invariant I1 over the whole block cache. -/
def VoteInvariant (bs : Blocks) : Prop :=
  ∀ hash bi, alookup bs hash = some bi → VoteOk hash bi

/-- A concrete 32-byte hash used in concrete evaluations. -/
def hash0 : Hash := ⟨List.replicate 32 0, by simp⟩

/-- A concrete block whose signature hash is hash0 and with no transactions. -/
def block0 : Block := { hash := some hash0, txs := [], signer_signature := none }

/-- A concrete block with signature hash hash0 and one transaction, txid 5. -/
def block5 : Block := { hash := some hash0, txs := [5], signer_signature := none }

/-- A concrete nonce request carrying block0. -/
def req0 : NonceRequest := { message := Msg.blockMsg block0 }

/-- The run-loop state after a nonce request for the unseen block0 arrived. -/
def stateA : RState := step initState (Action.nonceReq req0)

/-- The run-loop state after block0 was then rejected by the stacks node. -/
def stateB : RState := step stateA (Action.validation false block0 false)

/-- A BlockInfo for block0 validated as good, vote still unset. -/
def biT : BlockInfo :=
  { block := block0, vote := none, valid := some true, nonce_request := none,
    signing_round := false }

/-- A state whose cache holds block0 validated as good, vote still unset. -/
def stateT : RState :=
  { blocks := [(hash0, biT)], transactions := [], commands := [],
    state := State.idle }

/-- A BlockInfo for block0 with a stored accept vote. -/
def biV : BlockInfo :=
  { block := block0, vote := some hash0.val, valid := some true,
    nonce_request := none, signing_round := false }

/-- A state whose cache holds block0 with a stored accept vote. -/
def stateV : RState :=
  { blocks := [(hash0, biV)], transactions := [], commands := [],
    state := State.idle }

/-- A BlockInfo for block0 that is already being signed over. -/
def biS : BlockInfo :=
  { block := block0, vote := none, valid := some true, nonce_request := none,
    signing_round := true }

/-- A state in Idle whose queue heads with a Sign command for block0 while the
cache already records block0 as being signed over. -/
def stateC : RState :=
  { blocks := [(hash0, biS)], transactions := [],
    commands := [Command.sign block0 false none], state := State.idle }

/-- The cache entry reached for block0 after its nonce request was cached and
the stacks node then rejected the block. -/
def biB : BlockInfo :=
  { block := block0, vote := some (hash0.val ++ [110]), valid := some false,
    nonce_request := none, signing_round := true }

/-- A concrete aggregate signature verifying against key 7 over hash0's bytes. -/
def sig0 : Sig := { over := some (7, hash0.val) }

/-- A concrete signature verifying against nothing. -/
def sigBad : Sig := { over := none }

/-- A concrete signature share request carrying the 32-byte hash0. -/
def ssr0 : SignatureShareRequest := { message := hash0.val }

/-- A concrete signature share request with a malformed 2-byte message. -/
def ssrBad : SignatureShareRequest := { message := [1, 2] }

/-- A concrete public-key set containing signer id 0. -/
def pks0 : PublicKeys := [(0, 5), (2, 9)]

/-- A concrete public-key set with no entry for signer id 0. -/
def pks1 : PublicKeys := [(1, 4)]

theorem alookup_aremove {α β : Type} [DecidableEq α] (l : List (α × β))
    (a a' : α) : alookup (aremove l a) a' = if a = a' then none else alookup l a' := by
  induction l with
  | nil => by_cases h : a = a' <;> simp [aremove, alookup, h]
  | cons kv rest ih =>
    obtain ⟨k, v⟩ := kv
    by_cases hk : k = a
    · subst hk
      have hrm : aremove ((k, v) :: rest) k = aremove rest k := by
        simp [aremove]
      rw [hrm, ih]
      by_cases h : k = a' <;> simp [alookup, h]
    · by_cases h : a = a' <;> by_cases hk' : k = a' <;>
        simp_all [aremove, alookup, ih]

theorem alookup_ainsert {α β : Type} [DecidableEq α] (l : List (α × β))
    (a a' : α) (b : β) :
    alookup (ainsert l a b) a' = if a = a' then some b else alookup l a' := by
  by_cases h : a = a' <;> simp [ainsert, alookup, alookup_aremove, h]

theorem take32_of_len32 (l : List Nat) (hl : l.length = 32) : l.take 32 = l := by
  rw [← hl, List.take_length]

theorem take32_append (l t : List Nat) (hl : l.length = 32) :
    (l ++ t).take 32 = l := by
  rw [← hl, List.take_left]

theorem all_contains_iff (ts l : List Nat) :
    (ts.all fun t => l.contains t) = true ↔ ∀ t ∈ ts, t ∈ l := by
  simp [List.all_eq_true]

/-- C7: calculate_coordinator is a pure function of the peer set returning the
signer with the smallest signer id together with its ECDSA public key: whenever
an entry for signer id 0 is present (ids are non-negative, so 0 is then the
smallest id present), it returns (0, key_of(0)). -/
theorem coordinator_is_smallest_id (public_keys : PublicKeys) (key : Nat)
    (h0 : alookup public_keys 0 = some key) :
    calculate_coordinator public_keys = some (0, key) ∧
    ∀ p ∈ public_keys, 0 ≤ p.1 := by
  constructor
  · simp [calculate_coordinator, h0]
  · intro p _
    exact Nat.zero_le _

theorem coordinator_is_smallest_id_witness :
    calculate_coordinator pks0 = some (0, 5) ∧ ∀ p ∈ pks0, 0 ≤ p.1 :=
  coordinator_is_smallest_id pks0 5 (by decide)

/-- C10: calculate_coordinator returns a value exactly when the public-key set
has an entry for signer id 0 (the source unwraps that entry and panics
otherwise, modelled by the none result); under the precondition that the entry
exists the error branch is unreachable and the result is (0, key_of(0)). -/
theorem coordinator_requires_signer_zero (public_keys : PublicKeys) :
    (calculate_coordinator public_keys = none ↔ alookup public_keys 0 = none) ∧
    (∀ key, alookup public_keys 0 = some key →
      calculate_coordinator public_keys = some (0, key)) := by
  constructor
  · cases h : alookup public_keys 0 <;> simp [calculate_coordinator, h]
  · intro key hk
    simp [calculate_coordinator, hk]

theorem coordinator_requires_signer_zero_witness :
    calculate_coordinator pks1 = none ∧ calculate_coordinator pks0 = some (0, 5) :=
  ⟨((coordinator_requires_signer_zero pks1).1).2 (by decide),
   (coordinator_requires_signer_zero pks0).2 5 (by decide)⟩

/-- C1: for every verified NonceRequest whose block is in the block cache with
a known validation verdict, validate_nonce_request returns true and computes
the signer's own vote: accept exactly when the verdict is valid and every txid
of the expected-transactions list appears in the cached block's transactions;
the vote bytes are the 32-byte signature hash for accept and the hash followed
by the byte b'n' (33 bytes) for reject; they are stored in BlockInfo.vote and
the request message is rewritten to them. -/
theorem nonce_request_vote_rewrite (s : RState) (r : NonceRequest) (block : Block)
    (hash : Hash) (bi : BlockInfo) (v : Bool)
    (hdec : decodeBlock r.message = some block) (hh : block.hash = some hash)
    (hl : alookup s.blocks hash = some bi) (hv : bi.valid = some v) :
    (validate_nonce_request s r).1 = true ∧
    ((v = true ∧ ∀ t ∈ s.transactions, t ∈ bi.block.txs) →
      (alookup (validate_nonce_request s r).2.1.blocks hash).map BlockInfo.vote
          = some (some hash.val) ∧
      (validate_nonce_request s r).2.2.message = Msg.raw hash.val ∧
      hash.val.length = 32) ∧
    (¬(v = true ∧ ∀ t ∈ s.transactions, t ∈ bi.block.txs) →
      (alookup (validate_nonce_request s r).2.1.blocks hash).map BlockInfo.vote
          = some (some (hash.val ++ [110])) ∧
      (validate_nonce_request s r).2.2.message = Msg.raw (hash.val ++ [110]) ∧
      (hash.val ++ [110]).length = 33) := by
  have h1 : (validate_nonce_request s r).1 = true := by
    simp [validate_nonce_request, hdec, hh, hl, hv]
  have h2 : (validate_nonce_request s r).2.1.blocks
      = ainsert s.blocks hash (determine_vote bi r s.transactions hash).1 := by
    simp [validate_nonce_request, hdec, hh, hl, hv]
  have h3 : (validate_nonce_request s r).2.2
      = (determine_vote bi r s.transactions hash).2 := by
    simp [validate_nonce_request, hdec, hh, hl, hv]
  have hgd : bi.valid.getD false = v := by rw [hv]; rfl
  refine ⟨h1, ?_, ?_⟩
  · intro hacc
    have hall : (s.transactions.all fun t => bi.block.txs.contains t) = true :=
      (all_contains_iff _ _).mpr hacc.2
    have hcondf : (!(bi.valid.getD false)
        || !(s.transactions.all fun t => bi.block.txs.contains t)) = false := by
      rw [hgd, hall, hacc.1]
      rfl
    have hdet : determine_vote bi r s.transactions hash
        = ({ bi with vote := some hash.val },
           { r with message := Msg.raw hash.val }) := by
      rw [determine_vote]
      simp only [hcondf]
      simp
    rw [h2, h3]
    simp [hdet, alookup_ainsert, hash.property]
  · intro hacc
    have hcond : (!(bi.valid.getD false)
        || !(s.transactions.all fun t => bi.block.txs.contains t)) = true := by
      rw [hgd]
      by_cases hv2 : v = true
      · have hnall : (s.transactions.all fun t => bi.block.txs.contains t) ≠ true :=
          fun hal => hacc ⟨hv2, (all_contains_iff _ _).mp hal⟩
        simp [Bool.not_eq_true] at hnall
        simp [hnall]
      · have hvf : v = false := by revert hv2; cases v <;> simp
        simp [hvf]
    have hdet : determine_vote bi r s.transactions hash
        = ({ bi with vote := some (hash.val ++ [110]) },
           { r with message := Msg.raw (hash.val ++ [110]) }) := by
      rw [determine_vote]
      simp only [hcond, if_pos rfl]
      simp
    rw [h2, h3]
    simp [hdet, alookup_ainsert, hash.property]

theorem nonce_request_vote_rewrite_witness :
    (validate_nonce_request stateT req0).1 = true ∧
    (alookup (validate_nonce_request stateT req0).2.1.blocks hash0).map
        BlockInfo.vote = some (some hash0.val) ∧
    (validate_nonce_request stateT req0).2.2.message = Msg.raw hash0.val ∧
    hash0.val.length = 32 := by
  have h := nonce_request_vote_rewrite stateT req0 block0 hash0 biT true
    (by decide) (by decide) (by decide) (by decide)
  exact ⟨h.1, h.2.1 ⟨rfl, by simp [stateT]⟩⟩

/-- C4: a SignatureShareRequest message of 32 bytes is treated as an accept
hash, a 33-byte message ending in the byte b'n' as a reject hash over its
first 32 bytes, any other shape is dropped; the request is accepted exactly
when the cache has an entry for the 32-byte hash with a stored vote, in which
case the message is overwritten with that vote; an entry without a vote, or an
unknown hash, drops the request. -/
theorem signature_share_request_rewrite (blocks : Blocks) :
    (∀ r : SignatureShareRequest, r.message.length = 32 →
        share_request_hash_bytes r.message = some r.message) ∧
    (∀ r : SignatureShareRequest,
        r.message.length = 33 → r.message.getD 32 0 = 110 →
        share_request_hash_bytes r.message = some (r.message.take 32)) ∧
    (∀ r : SignatureShareRequest, r.message.length ≠ 32 →
        ¬(r.message.length = 33 ∧ r.message.getD 32 0 = 110) →
        validate_signature_share_request blocks r = (false, r)) ∧
    (∀ (r : SignatureShareRequest) (hb : List Nat) (hash : Hash),
        share_request_hash_bytes r.message = some hb →
        fromBytes hb = some hash →
        (∀ bi vote, alookup blocks hash = some bi → bi.vote = some vote →
            validate_signature_share_request blocks r
              = (true, { r with message := vote })) ∧
        (∀ bi, alookup blocks hash = some bi → bi.vote = none →
            validate_signature_share_request blocks r = (false, r)) ∧
        (alookup blocks hash = none →
            validate_signature_share_request blocks r = (false, r))) := by
  refine ⟨?_, ?_, ?_, ?_⟩
  · intro r h32
    have h33 : ¬(r.message.length = 33 ∧ r.message.getD 32 0 = 110) := by
      rintro ⟨h, _⟩
      omega
    unfold share_request_hash_bytes
    rw [if_neg h33, if_pos h32]
  · intro r h33 hn
    unfold share_request_hash_bytes
    rw [if_pos ⟨h33, hn⟩]
  · intro r h32 h33
    have hnone : share_request_hash_bytes r.message = none := by
      unfold share_request_hash_bytes
      rw [if_neg h33, if_neg h32]
    simp [validate_signature_share_request, hnone]
  · intro r hb hash hhb hfb
    refine ⟨?_, ?_, ?_⟩
    · intro bi vote hbi hvote
      simp [validate_signature_share_request, hhb, hfb, hbi, hvote]
    · intro bi hbi hvote
      simp [validate_signature_share_request, hhb, hfb, hbi, hvote]
    · intro hbi
      simp [validate_signature_share_request, hhb, hfb, hbi]

theorem signature_share_request_rewrite_witness :
    share_request_hash_bytes ssr0.message = some ssr0.message ∧
    validate_signature_share_request stateV.blocks ssrBad = (false, ssrBad) ∧
    validate_signature_share_request stateV.blocks ssr0
      = (true, { ssr0 with message := hash0.val }) ∧
    validate_signature_share_request stateT.blocks ssr0 = (false, ssr0) ∧
    validate_signature_share_request [] ssr0 = (false, ssr0) := by
  refine ⟨(signature_share_request_rewrite []).1 ssr0 (by decide),
    (signature_share_request_rewrite stateV.blocks).2.2.1 ssrBad (by decide)
      (by decide),
    ((signature_share_request_rewrite stateV.blocks).2.2.2 ssr0 hash0.val hash0
      (by decide) (by decide)).1 biV hash0.val (by decide) (by decide),
    ((signature_share_request_rewrite stateT.blocks).2.2.2 ssr0 hash0.val hash0
      (by decide) (by decide)).2.1 biT (by decide) (by decide),
    ((signature_share_request_rewrite []).2.2.2 ssr0 hash0.val hash0
      (by decide) (by decide)).2.2 (by decide)⟩

/-- C9: for every requested payload_size, Ping::new builds a payload of length
zero, because the vector is allocated with capacity payload_size but never
extended before the random fill runs over its empty slice; the pong echoing the
ping carries the same id and the same (empty) payload. -/
theorem ping_payload_empty :
    ∀ (payload_size : Nat) (rng : Nat → Nat) (random_id : Nat),
      (Ping.new payload_size rng random_id).payload = [] ∧
      (Ping.new payload_size rng random_id).pong.payload = [] ∧
      (Ping.new payload_size rng random_id).pong.id = random_id := by
  intro payload_size rng random_id
  simp [Ping.new, Ping.pong, fill_bytes, vec_with_capacity]

theorem voteOk_new (hash : Hash) (b : Block) : VoteOk hash (BlockInfo.new b) := by
  intro v hv
  simp [BlockInfo.new] at hv

theorem voteOk_new_with_request (hash : Hash) (b : Block) (r : NonceRequest) :
    VoteOk hash (BlockInfo.new_with_request b r) := by
  intro v hv
  simp [BlockInfo.new_with_request] at hv

theorem voteOk_of_vote_eq {hash : Hash} {bi bi' : BlockInfo}
    (hv : bi'.vote = bi.vote) (hok : VoteOk hash bi) : VoteOk hash bi' := by
  intro v hvv
  exact hok v (hv ▸ hvv)

theorem determine_vote_vote_eq (bi : BlockInfo) (r : NonceRequest)
    (txs : List Nat) (hash : Hash) :
    (determine_vote bi r txs hash).1.vote
      = some (if !(bi.valid.getD false)
            || !(txs.all fun t => bi.block.txs.contains t)
          then hash.val ++ [110] else hash.val) := rfl

theorem voteOk_determine_vote (bi : BlockInfo) (r : NonceRequest)
    (txs : List Nat) (hash : Hash) :
    VoteOk hash (determine_vote bi r txs hash).1 := by
  intro v hv
  rw [determine_vote_vote_eq] at hv
  injection hv with hv
  subst hv
  split
  · exact ⟨Or.inr (by simp [hash.property]), take32_append _ _ hash.property⟩
  · exact ⟨Or.inl hash.property, take32_of_len32 _ hash.property⟩

theorem voteInvariant_ainsert {bs : Blocks} {hash : Hash} {bi : BlockInfo}
    (hinv : VoteInvariant bs) (hok : VoteOk hash bi) :
    VoteInvariant (ainsert bs hash bi) := by
  intro h' bi' hl
  rw [alookup_ainsert] at hl
  by_cases he : hash = h'
  · rw [if_pos he] at hl
    injection hl with hl
    subst hl
    exact he ▸ hok
  · rw [if_neg he] at hl
    exact hinv h' bi' hl

theorem voteInvariant_aremove {bs : Blocks} {hash : Hash}
    (hinv : VoteInvariant bs) : VoteInvariant (aremove bs hash) := by
  intro h' bi' hl
  rw [alookup_aremove] at hl
  by_cases he : hash = h'
  · rw [if_pos he] at hl
    cases hl
  · rw [if_neg he] at hl
    exact hinv h' bi' hl

theorem voteInvariant_validate_nonce_request (s : RState) (r : NonceRequest)
    (hinv : VoteInvariant s.blocks) :
    VoteInvariant (validate_nonce_request s r).2.1.blocks := by
  cases hd : decodeBlock r.message with
  | none => simpa [validate_nonce_request, hd] using hinv
  | some block =>
    cases hb : block.hash with
    | none => simpa [validate_nonce_request, hd, hb] using hinv
    | some hash =>
      cases hl : alookup s.blocks hash with
      | none =>
        have heq : (validate_nonce_request s r).2.1.blocks
            = ainsert s.blocks hash (BlockInfo.new_with_request block r) := by
          simp [validate_nonce_request, hd, hb, hl]
        rw [heq]
        exact voteInvariant_ainsert hinv (voteOk_new_with_request hash block r)
      | some bi =>
        cases hvv : bi.valid with
        | none =>
          have heq : (validate_nonce_request s r).2.1.blocks
              = ainsert s.blocks hash { bi with nonce_request := some r } := by
            simp [validate_nonce_request, hd, hb, hl, hvv]
          rw [heq]
          exact voteInvariant_ainsert hinv
            (voteOk_of_vote_eq rfl (hinv hash bi hl))
        | some vb =>
          have heq : (validate_nonce_request s r).2.1.blocks
              = ainsert s.blocks hash (determine_vote bi r s.transactions hash).1 := by
            simp [validate_nonce_request, hd, hb, hl, hvv]
          rw [heq]
          exact voteInvariant_ainsert hinv
            (voteOk_determine_vote bi r s.transactions hash)

theorem voteInvariant_handle_block_validate_response (s : RState) (ok : Bool)
    (b : Block) (ic : Bool) (hinv : VoteInvariant s.blocks) :
    VoteInvariant (handle_block_validate_response s ok b ic).1.blocks := by
  cases hb : b.hash with
  | none => simpa [handle_block_validate_response, hb] using hinv
  | some hash =>
    have hok0 : VoteOk hash ((alookup s.blocks hash).getD (BlockInfo.new b)) := by
      cases hl : alookup s.blocks hash with
      | none => simpa using voteOk_new hash b
      | some bi => simpa using hinv hash bi hl
    cases hnr : ((alookup s.blocks hash).getD (BlockInfo.new b)).nonce_request with
    | some r =>
      have heq : (handle_block_validate_response s ok b ic).1.blocks
          = ainsert s.blocks hash
              (determine_vote
                { (alookup s.blocks hash).getD (BlockInfo.new b) with
                  valid := some ok, nonce_request := none }
                r s.transactions hash).1 := by
        simp [handle_block_validate_response, hb, hnr]
      rw [heq]
      exact voteInvariant_ainsert hinv (voteOk_determine_vote _ _ _ _)
    | none =>
      have heq : (handle_block_validate_response s ok b ic).1.blocks
          = ainsert s.blocks hash
              { (alookup s.blocks hash).getD (BlockInfo.new b) with
                valid := some ok } := by
        simp only [handle_block_validate_response, hb, hnr]
        split <;> rfl
      rw [heq]
      exact voteInvariant_ainsert hinv (voteOk_of_vote_eq rfl hok0)

theorem voteInvariant_execute_command (s : RState) (ok : Bool) (c : Command)
    (hinv : VoteInvariant s.blocks) :
    VoteInvariant (execute_command s ok c).2.blocks := by
  cases c with
  | dkg => cases ok <;> simpa [execute_command] using hinv
  | ping n => simpa [execute_command] using hinv
  | sign block tap mr =>
    cases hb : block.hash with
    | none => simpa [execute_command, hb] using hinv
    | some hash =>
      cases hl : alookup s.blocks hash with
      | some bi =>
        by_cases hsr : bi.signing_round
        · simpa [execute_command, hb, hl, hsr] using hinv
        · cases ok
          · simpa [execute_command, hb, hl, hsr] using hinv
          · have heq : (execute_command s true (Command.sign block tap mr)).2.blocks
                = ainsert s.blocks hash { bi with signing_round := true } := by
              simp [execute_command, hb, hl, hsr]
            rw [heq]
            exact voteInvariant_ainsert hinv
              (voteOk_of_vote_eq rfl (hinv hash bi hl))
      | none =>
        cases ok
        · have heq : (execute_command s false (Command.sign block tap mr)).2.blocks
              = ainsert s.blocks hash (BlockInfo.new block) := by
            simp [execute_command, hb, hl]
          rw [heq]
          exact voteInvariant_ainsert hinv (voteOk_new hash block)
        · have heq : (execute_command s true (Command.sign block tap mr)).2.blocks
              = ainsert s.blocks hash
                  { BlockInfo.new block with signing_round := true } := by
            simp [execute_command, hb, hl]
          rw [heq]
          exact voteInvariant_ainsert hinv
            (voteOk_of_vote_eq rfl (voteOk_new hash block))

theorem voteInvariant_process_sign_result (blocks : Blocks) (key : Nat)
    (message : List Nat) (sg : Sig) (hinv : VoteInvariant blocks) :
    VoteInvariant (process_sign_result blocks key message sg).1 := by
  by_cases hv : sigVerify sg key message
  · cases hf : fromBytes (if 32 < message.length then message.take 32 else message) with
    | none => simpa [process_sign_result, hv, hf] using hinv
    | some bh =>
      cases hl : alookup blocks bh with
      | none => simpa [process_sign_result, hv, hf, hl] using hinv
      | some bi =>
        have heq : (process_sign_result blocks key message sg).1
            = aremove blocks bh := by
          simp [process_sign_result, hv, hf, hl]
        rw [heq]
        exact voteInvariant_aremove hinv
  · simpa [process_sign_result, hv] using hinv

theorem voteInvariant_send_block_response (blocks : Blocks) (agg : Option Nat)
    (message : List Nat) (results : List OperationResult)
    (hinv : VoteInvariant blocks) :
    VoteInvariant (send_block_response_messages blocks agg message results).1 := by
  cases agg with
  | none => simpa [send_block_response_messages] using hinv
  | some key =>
    have main : ∀ (rs : List OperationResult) (acc : Blocks × List BlockSubmission),
        VoteInvariant acc.1 →
        VoteInvariant (rs.foldl (sbrm_step key message) acc).1 := by
      intro rs
      induction rs with
      | nil => intro acc h; simpa using h
      | cons r rest ih =>
        intro acc h
        simp only [List.foldl_cons]
        apply ih
        cases r with
        | signDone sg => exact voteInvariant_process_sign_result acc.1 key message sg h
        | otherDone => exact h
    simpa [send_block_response_messages] using main results (blocks, []) hinv

theorem voteInvariant_step (s : RState) (a : Action)
    (hinv : VoteInvariant s.blocks) : VoteInvariant (step s a).blocks := by
  cases a with
  | initAct hka ic =>
    have heq : (step s (Action.initAct hka ic)).blocks = s.blocks := by
      simp only [step]
      split <;> rfl
    rw [heq]
    exact hinv
  | pushCommand c => exact hinv
  | minerProposal b =>
    cases hb : b.hash with
    | none => simpa [step, hb] using hinv
    | some hash =>
      have heq : (step s (Action.minerProposal b)).blocks
          = ainsert s.blocks hash (BlockInfo.new b) := by
        simp [step, hb]
      rw [heq]
      exact voteInvariant_ainsert hinv (voteOk_new hash b)
  | validation ok b ic =>
    exact voteInvariant_handle_block_validate_response s ok b ic hinv
  | nonceReq r => exact voteInvariant_validate_nonce_request s r hinv
  | cmdExec c ok => exact voteInvariant_execute_command s ok c hinv
  | opResults agg message results =>
    exact voteInvariant_send_block_response s.blocks agg message results hinv

/-- C5 (invariant I1): in every reachable run-loop state, every cache entry
whose vote is set has a vote of 32 or 33 bytes whose first 32 bytes equal the
signature hash the entry is keyed under. -/
theorem vote_invariant_holds (s : RState) (hs : Reachable s) :
    VoteInvariant s.blocks := by
  induction hs with
  | init =>
    intro h bi hl
    simp [initState, alookup] at hl
  | next a hr ih => exact voteInvariant_step _ a ih

theorem vote_invariant_holds_witness : VoteInvariant stateB.blocks :=
  vote_invariant_holds stateB
    (Reachable.next (Action.validation false block0 false)
      (Reachable.next (Action.nonceReq req0) Reachable.init))

theorem determine_vote_signing_round (bi : BlockInfo) (r : NonceRequest)
    (txs : List Nat) (hash : Hash) :
    (determine_vote bi r txs hash).1.signing_round = bi.signing_round := rfl

theorem determine_vote_nonce_request (bi : BlockInfo) (r : NonceRequest)
    (txs : List Nat) (hash : Hash) :
    (determine_vote bi r txs hash).1.nonce_request = bi.nonce_request := rfl

/-- C2 counterexample: a nonce request for the unseen block0 followed by a
reject verdict for block0 reaches a run-loop state whose cache entry for hash0
has valid = some false together with signing_round = true (the entry was
created by BlockInfo::new_with_request, which sets signing_round to true before
any verdict is known), refuting invariant I4 as claimed. -/
theorem invalid_block_with_signing_round_reachable :
    Reachable stateB ∧ alookup stateB.blocks hash0 = some biB ∧
    biB.valid = some false ∧ biB.signing_round = true := by
  refine ⟨?_, by decide, by decide, by decide⟩
  exact Reachable.next (Action.validation false block0 false)
    (Reachable.next (Action.nonceReq req0) Reachable.init)

/-- C2 amended: handling a reject verdict never enqueues a Sign command (the
command queue is unchanged) and never raises a signing_round flag: any entry
with signing_round = true after reject handling already had signing_round =
true before it.  The original claim fails because nonce-request caching creates
entries with signing_round = true before the verdict is known. -/
theorem reject_verdict_no_sign_trigger (s : RState) (b : Block) (ic : Bool)
    (hash : Hash) (bi : BlockInfo)
    (hl : alookup (handle_block_validate_response s false b ic).1.blocks hash
        = some bi)
    (hsr : bi.signing_round = true) :
    (handle_block_validate_response s false b ic).1.commands = s.commands ∧
    (alookup s.blocks hash).map BlockInfo.signing_round = some true := by
  cases hb : b.hash with
  | none =>
    have heq : (handle_block_validate_response s false b ic).1 = s := by
      simp [handle_block_validate_response, hb]
    rw [heq] at hl
    refine ⟨by rw [heq], ?_⟩
    rw [hl]
    simp [hsr]
  | some h =>
    have hsr0 : ∀ bi0 : BlockInfo,
        ((alookup s.blocks h).getD (BlockInfo.new b)).signing_round = true →
        h = hash →
        (alookup s.blocks hash).map BlockInfo.signing_round = some true := by
      intro bi0 hsb he
      cases hls : alookup s.blocks h with
      | none =>
        rw [hls] at hsb
        simp [BlockInfo.new] at hsb
      | some biOld =>
        rw [hls] at hsb
        simp at hsb
        rw [← he, hls]
        simp [hsb]
    cases hnr : ((alookup s.blocks h).getD (BlockInfo.new b)).nonce_request with
    | some r =>
      have hcmd : (handle_block_validate_response s false b ic).1.commands
          = s.commands := by
        simp [handle_block_validate_response, hb, hnr]
      have hblk : (handle_block_validate_response s false b ic).1.blocks
          = ainsert s.blocks h
              (determine_vote
                { (alookup s.blocks h).getD (BlockInfo.new b) with
                  valid := some false, nonce_request := none }
                r s.transactions h).1 := by
        simp [handle_block_validate_response, hb, hnr]
      refine ⟨hcmd, ?_⟩
      rw [hblk, alookup_ainsert] at hl
      by_cases he : h = hash
      · rw [if_pos he] at hl
        injection hl with hl
        have hsb : ((alookup s.blocks h).getD (BlockInfo.new b)).signing_round
            = true := by
          have := congrArg BlockInfo.signing_round hl
          rw [determine_vote_signing_round] at this
          simpa [hsr] using this.symm
        exact hsr0 (BlockInfo.new b) hsb he
      · rw [if_neg he] at hl
        rw [hl]
        simp [hsr]
    | none =>
      have hcmd : (handle_block_validate_response s false b ic).1.commands
          = s.commands := by
        simp [handle_block_validate_response, hb, hnr]
      have hblk : (handle_block_validate_response s false b ic).1.blocks
          = ainsert s.blocks h
              { (alookup s.blocks h).getD (BlockInfo.new b) with
                valid := some false } := by
        simp [handle_block_validate_response, hb, hnr]
      refine ⟨hcmd, ?_⟩
      rw [hblk, alookup_ainsert] at hl
      by_cases he : h = hash
      · rw [if_pos he] at hl
        injection hl with hl
        have hsb : ((alookup s.blocks h).getD (BlockInfo.new b)).signing_round
            = true := by
          have := congrArg BlockInfo.signing_round hl
          simpa [hsr] using this.symm
        exact hsr0 (BlockInfo.new b) hsb he
      · rw [if_neg he] at hl
        rw [hl]
        simp [hsr]

theorem reject_verdict_no_sign_trigger_witness :
    (handle_block_validate_response stateA false block0 false).1.commands
        = stateA.commands ∧
    (alookup stateA.blocks hash0).map BlockInfo.signing_round = some true :=
  reject_verdict_no_sign_trigger stateA block0 false hash0 biB
    (by decide) (by decide)

/-- C3: executing a Sign command for a block whose cache entry already has
signing_round = true makes execute_command return false with the state
unchanged; but process_next_command retries execute_command in a loop until it
returns true, so for every finite sequence of retry attempts the loop is still
running: process_next_command does not terminate on this input, contradicting
the claim that the command is skipped with no retry. -/
theorem duplicate_sign_command_never_terminates (s : RState) (block : Block)
    (tap : Bool) (mr : Option Nat) (rest : List Command) (hash : Hash)
    (bi : BlockInfo) (hst : s.state = State.idle)
    (hcmd : s.commands = Command.sign block tap mr :: rest)
    (hb : block.hash = some hash) (hl : alookup s.blocks hash = some bi)
    (hsr : bi.signing_round = true) :
    (∀ ok, execute_command s ok (Command.sign block tap mr) = (false, s)) ∧
    (∀ oracles, process_next_command s oracles = none) := by
  have hexec : ∀ (s' : RState), alookup s'.blocks hash = some bi →
      ∀ ok, execute_command s' ok (Command.sign block tap mr) = (false, s') := by
    intro s' hl' ok
    simp [execute_command, hb, hl', hsr]
  refine ⟨hexec s hl, ?_⟩
  intro oracles
  have hloop : ∀ (os : List Bool) (s' : RState),
      alookup s'.blocks hash = some bi →
      retry_exec s' os (Command.sign block tap mr) = none := by
    intro os
    induction os with
    | nil => intro s' _; rfl
    | cons ok os2 ih =>
      intro s' hl'
      have hstep := hexec s' hl' ok
      simp only [retry_exec, hstep]
      exact ih s' hl'
  simp only [process_next_command, hst, hcmd]
  exact hloop oracles { s with commands := rest, state := State.idle } hl

theorem duplicate_sign_command_never_terminates_witness :
    execute_command stateC true (Command.sign block0 false none)
        = (false, stateC) ∧
    process_next_command stateC [true, true, true] = none := by
  have h := duplicate_sign_command_never_terminates stateC block0 false none []
    hash0 biS (by decide) (by decide) (by decide) (by decide) (by decide)
  exact ⟨h.1 true, h.2 [true, true, true]⟩

/-- C6: a nonce request arriving before its block is validated (block unseen,
or verdict still unknown) is cached in the entry's nonce_request field with
validation returning false; when the verdict arrives, the cached request is
taken out (the entry's nonce_request is none in the resulting state) and
exactly one request (the resumed one) is fed back through the packet pipeline,
so the cached request is resumed exactly once. -/
theorem nonce_request_cached_resumed_once :
    (∀ (s : RState) (r : NonceRequest) (block : Block) (hash : Hash),
        decodeBlock r.message = some block → block.hash = some hash →
        alookup s.blocks hash = none →
        (validate_nonce_request s r).1 = false ∧
        (alookup (validate_nonce_request s r).2.1.blocks hash).map
            BlockInfo.nonce_request = some (some r)) ∧
    (∀ (s : RState) (r : NonceRequest) (block : Block) (hash : Hash)
        (bi : BlockInfo),
        decodeBlock r.message = some block → block.hash = some hash →
        alookup s.blocks hash = some bi → bi.valid = none →
        (validate_nonce_request s r).1 = false ∧
        (alookup (validate_nonce_request s r).2.1.blocks hash).map
            BlockInfo.nonce_request = some (some r)) ∧
    (∀ (s : RState) (ok : Bool) (b : Block) (ic : Bool) (hash : Hash),
        b.hash = some hash →
        (alookup (handle_block_validate_response s ok b ic).1.blocks hash).map
            BlockInfo.nonce_request = some none ∧
        (handle_block_validate_response s ok b ic).2.length
          = (if ((alookup s.blocks hash).getD (BlockInfo.new b)).nonce_request.isSome
             then 1 else 0)) := by
  refine ⟨?_, ?_, ?_⟩
  · intro s r block hash hd hb hl
    refine ⟨by simp [validate_nonce_request, hd, hb, hl], ?_⟩
    have heq : (validate_nonce_request s r).2.1.blocks
        = ainsert s.blocks hash (BlockInfo.new_with_request block r) := by
      simp [validate_nonce_request, hd, hb, hl]
    rw [heq, alookup_ainsert, if_pos rfl]
    simp [BlockInfo.new_with_request]
  · intro s r block hash bi hd hb hl hv
    refine ⟨by simp [validate_nonce_request, hd, hb, hl, hv], ?_⟩
    have heq : (validate_nonce_request s r).2.1.blocks
        = ainsert s.blocks hash { bi with nonce_request := some r } := by
      simp [validate_nonce_request, hd, hb, hl, hv]
    rw [heq, alookup_ainsert, if_pos rfl]
    simp
  · intro s ok b ic hash hb
    cases hnr : ((alookup s.blocks hash).getD (BlockInfo.new b)).nonce_request with
    | some r =>
      have hblk : (handle_block_validate_response s ok b ic).1.blocks
          = ainsert s.blocks hash
              (determine_vote
                { (alookup s.blocks hash).getD (BlockInfo.new b) with
                  valid := some ok, nonce_request := none }
                r s.transactions hash).1 := by
        simp [handle_block_validate_response, hb, hnr]
      have hout : (handle_block_validate_response s ok b ic).2
          = [(determine_vote
                { (alookup s.blocks hash).getD (BlockInfo.new b) with
                  valid := some ok, nonce_request := none }
                r s.transactions hash).2] := by
        simp [handle_block_validate_response, hb, hnr]
      refine ⟨?_, ?_⟩
      · rw [hblk, alookup_ainsert, if_pos rfl]
        simp [determine_vote_nonce_request]
      · rw [hout]
        simp [hnr]
    | none =>
      have hblk : (handle_block_validate_response s ok b ic).1.blocks
          = ainsert s.blocks hash
              { (alookup s.blocks hash).getD (BlockInfo.new b) with
                valid := some ok } := by
        simp only [handle_block_validate_response, hb, hnr]
        split <;> rfl
      have hout : (handle_block_validate_response s ok b ic).2 = [] := by
        simp only [handle_block_validate_response, hb, hnr]
        split <;> rfl
      refine ⟨?_, ?_⟩
      · rw [hblk, alookup_ainsert, if_pos rfl]
        simp [hnr]
      · rw [hout]
        simp [hnr]

theorem nonce_request_cached_resumed_once_witness :
    ((validate_nonce_request initState req0).1 = false ∧
     (alookup (validate_nonce_request initState req0).2.1.blocks hash0).map
        BlockInfo.nonce_request = some (some req0)) ∧
    ((validate_nonce_request stateA req0).1 = false ∧
     (alookup (validate_nonce_request stateA req0).2.1.blocks hash0).map
        BlockInfo.nonce_request = some (some req0)) ∧
    ((alookup (handle_block_validate_response stateA false block0 false).1.blocks
        hash0).map BlockInfo.nonce_request = some none ∧
     (handle_block_validate_response stateA false block0 false).2.length
       = (if ((alookup stateA.blocks hash0).getD
            (BlockInfo.new block0)).nonce_request.isSome then 1 else 0)) := by
  refine ⟨?_, ?_, ?_⟩
  · exact nonce_request_cached_resumed_once.1 initState req0 block0 hash0
      (by decide) (by decide) (by decide)
  · exact nonce_request_cached_resumed_once.2.1 stateA req0 block0 hash0
      (BlockInfo.new_with_request block0 req0) (by decide) (by decide)
      (by decide) (by decide)
  · exact nonce_request_cached_resumed_once.2.2 stateA false block0 false hash0
      (by decide)

/-- C8: a Sign operation result is verified against the aggregate public key
over the coordinator's last message and dropped when verification fails;
otherwise the first 32 bytes of the message name the block hash, the matching
BlockInfo is removed from the cache, and a BlockResponse::Accepted carrying the
produced threshold signature is published exactly when the message equals the
32-byte hash, else a BlockRejection with SignedRejection is published. -/
theorem sign_result_block_response (blocks : Blocks) (key : Nat)
    (message : List Nat) (sg : Sig) :
    (sigVerify sg key message = false →
      send_block_response_messages blocks (some key) message
          [OperationResult.signDone sg] = (blocks, [])) ∧
    (∀ (hash : Hash) (bi : BlockInfo),
      sigVerify sg key message = true →
      fromBytes (if 32 < message.length then message.take 32 else message)
          = some hash →
      alookup blocks hash = some bi →
      send_block_response_messages blocks (some key) message
          [OperationResult.signDone sg]
        = (aremove blocks hash,
           [if message = hash.val
            then BlockSubmission.accepted (with_signature bi.block sg)
            else BlockSubmission.rejection (with_signature bi.block sg)
              RejectCode.signedRejection])) := by
  constructor
  · intro hv
    simp [send_block_response_messages, sbrm_step, process_sign_result, hv]
  · intro hash bi hv hf hl
    simp [send_block_response_messages, sbrm_step, process_sign_result,
      hv, hf, hl]

theorem sign_result_block_response_witness :
    send_block_response_messages stateT.blocks (some 7) hash0.val
        [OperationResult.signDone sigBad] = (stateT.blocks, []) ∧
    send_block_response_messages stateT.blocks (some 7) hash0.val
        [OperationResult.signDone sig0]
      = (aremove stateT.blocks hash0,
         [BlockSubmission.accepted (with_signature biT.block sig0)]) := by
  constructor
  · exact (sign_result_block_response stateT.blocks 7 hash0.val sigBad).1
      (by decide)
  · have h := (sign_result_block_response stateT.blocks 7 hash0.val sig0).2
      hash0 biT (by decide) (by decide) (by decide)
    rw [h]
    simp

end StacksSigner
